import Mathlib

/-! Shallow embedding of the gootrago CSV translation pipeline, taken from
src/cmd/common.go (`csvCmd`, `decodeColNumbers`, `titleToNumber`) and
src/cmd/translateEx.go (the dispatcher boundary `translateEx`).

Modelling conventions:
* Go `int` is 64-bit two's complement; the accumulating multiplication in
  `titleToNumber` can overflow and is therefore wrapped with `wrap64`;
  `strconv.Atoi` rejects out-of-64-bit-range literals with an error.
* Go runtime panics (index out of range) are modelled as distinguished
  error constructors, never silently absorbed into ordinary errors.
* `strings.TrimSpace` is modelled on the Latin-1 white-space set and
  `strings.ToUpper` on the ASCII case mapping; case mapping and space
  classes outside that fragment are not modelled (no claim depends on them).
* The translation dispatcher (`translateEx` backed by the two external
  Google clients) is an opaque capability of type `Disp`, per the spec's
  boundary description.
* File effects: `csvCmdRun` returns `.ok table` exactly when the Go code
  reaches `writeSliceToCSV(outputFile, table, ...)`; any `.error` result
  means the command aborts and the output file is never written.
-/

/-- Interpretation of Go 64-bit `int` wrap-around on an unbounded integer. -/
def wrap64 (z : Int) : Int := (z + 2 ^ 63) % 2 ^ 64 - 2 ^ 63

/-- Test `(c >= 'A') && (c <= 'Z')` from `titleToNumber` / `decodeColNumbers`. -/
def charOk (c : Char) : Bool := 65 ≤ c.toNat && c.toNat ≤ 90

/-- Go expression `int(c - 'A' + 1)` from `titleToNumber`. -/
def charVal (c : Char) : Int := (c.toNat : Int) - 65 + 1

/-- Loop body of `titleToNumber` (src/cmd/common.go:387-403): left-to-right
over the runes, returning 0 as soon as a rune outside 'A'..'Z' is seen,
otherwise accumulating `res = res*26 + int(c-'A'+1)` in Go `int` arithmetic. -/
def titleLoop : Int → List Char → Int
  | res, [] => res
  | res, c :: cs => if charOk c then titleLoop (wrap64 (res * 26 + charVal c)) cs else 0

/-- Embedding of `titleToNumber` (src/cmd/common.go:387-403). -/
def titleToNumber (columnTitle : String) : Int :=
  if columnTitle.data.length < 1 then 0 else titleLoop 0 columnTitle.data

/-- White-space test of Go `strings.TrimSpace`, restricted to Latin-1
code points (`'\t' '\n' '\v' '\f' '\r' ' '`, U+0085, U+00A0). -/
def goIsSpace (c : Char) : Bool :=
  c.toNat = 9 || c.toNat = 10 || c.toNat = 11 || c.toNat = 12 || c.toNat = 13 ||
  c.toNat = 32 || c.toNat = 133 || c.toNat = 160

/-- Embedding of `strings.TrimSpace`: drop leading and trailing white space. -/
def goTrimSpace (s : String) : String :=
  String.mk (((s.data.dropWhile goIsSpace).reverse.dropWhile goIsSpace).reverse)

/-- Embedding of `strings.ToUpper` on the ASCII fragment (`Char.toUpper`
is exactly the ASCII case map). -/
def goToUpper (s : String) : String := String.mk (s.data.map Char.toUpper)

/-- Normalisation `strings.ToUpper(strings.TrimSpace(col))` applied to each
token by `decodeColNumbers` (src/cmd/common.go:366). -/
def normalizeTok (s : String) : String := goToUpper (goTrimSpace s)

/-- Largest Go `int` value, 2^63 - 1. -/
def intMax : Int := 2 ^ 63 - 1

/-- Test that every character of the list is an ASCII decimal digit. -/
def allDigits (l : List Char) : Bool := l.all fun c => 48 ≤ c.toNat && c.toNat ≤ 57

/-- Value of a list of ASCII decimal digits, most significant first. -/
def digitsVal (l : List Char) : Nat := l.foldl (fun a c => a * 10 + (c.toNat - 48)) 0

/-- Parse a non-empty all-digit run, as required by `strconv.Atoi` after the
optional sign. -/
def parseDigits (l : List Char) : Option Nat :=
  if !l.isEmpty && allDigits l then some (digitsVal l) else none

/-- Embedding of Go `strconv.Atoi`: optional leading sign, then one or more
ASCII digits; values outside the 64-bit `int` range are an error (`none`). -/
def atoi (s : String) : Option Int :=
  match s.data with
  | '+' :: rest =>
    (parseDigits rest).bind fun n => if (n : Int) ≤ intMax then some (n : Int) else none
  | '-' :: rest =>
    (parseDigits rest).bind fun n => if (n : Int) ≤ intMax + 1 then some (-(n : Int)) else none
  | l => (parseDigits l).bind fun n => if (n : Int) ≤ intMax then some (n : Int) else none

/-- Error outcomes of one iteration of the `decodeColNumbers` loop.
`panicIndexOutOfRange` models the Go runtime panic raised by `col[0]`
when the normalised token is empty; the other two carry the string that
the corresponding `fmt.Errorf` call formats (the normalised token `col`). -/
inductive ColErr where
  | panicIndexOutOfRange : ColErr
  | invalidColumn : String → ColErr
  | outOfRange : String → ColErr
  deriving DecidableEq, Repr

/-- Range check from `decodeColNumbers` (src/cmd/common.go:378-380):
`colNumber < 1 || colNumber > csvWidth` fails with the out-of-range error
formatted with the normalised token. -/
def rangeCheck (col : String) (colNumber : Int) (csvWidth : Nat) : Except ColErr Int :=
  if colNumber < 1 ∨ colNumber > (csvWidth : Int) then .error (.outOfRange col)
  else .ok colNumber

/-- Body of the `decodeColNumbers` loop for one token
(src/cmd/common.go:365-382): normalise, branch on whether the first
character is in 'A'..'Z' (letter reference via `titleToNumber`, otherwise
`strconv.Atoi`), then range-check.  Indexing `col[0]` on an empty
normalised token is the Go runtime panic, modelled explicitly. -/
def decodeColOne (rawCol : String) (csvWidth : Nat) : Except ColErr Int :=
  let col := normalizeTok rawCol
  match col.data with
  | [] => .error .panicIndexOutOfRange
  | c :: _ =>
    if charOk c then rangeCheck col (titleToNumber col) csvWidth
    else
      match atoi col with
      | some n => rangeCheck col n csvWidth
      | none => .error (.invalidColumn col)

/-- Embedding of `decodeColNumbers` (src/cmd/common.go:363-385): decode each
token left to right, returning the first error immediately, otherwise the
list of decoded indices in input order. -/
def decodeColNumbers (csvColumn : List String) (csvWidth : Nat) : Except ColErr (List Int) :=
  match csvColumn with
  | [] => .ok []
  | col :: rest =>
    match decodeColOne col csvWidth with
    | .error e => .error e
    | .ok n =>
      match decodeColNumbers rest csvWidth with
      | .error e => .error e
      | .ok ns => .ok (n :: ns)

/-- Value of the Go variable `colNumber` computed for a token before the
range check (`titleToNumber` on the letter branch, `strconv.Atoi` on the
digit branch); `none` when no value is computed (empty normalised token,
which panics, or an `Atoi` failure). -/
def colValue (rawCol : String) : Option Int :=
  let col := normalizeTok rawCol
  match col.data with
  | [] => none
  | c :: _ => if charOk c then some (titleToNumber col) else atoi col

/-- Type of the Translation Dispatcher capability: `translateEx(strInp,
useAdvanced)` (src/cmd/translateEx.go:238-253) delegating to one of the two
external Google clients.  The spec treats it as an opaque function from an
ordered batch of strings to an ordered batch of strings or an error; claims
quantify over all dispatchers. -/
abbrev Disp := List String → Except String (List String)

/-- Error outcomes of the `csv` command body (src/cmd/common.go:305-343).
`sameFile` is the explicit input-equals-output guard, `readFail` a CSV read
failure, `colErr` a `decodeColNumbers` failure, `translateFail` carries the
message of a failed `translateEx` call, and `panicIndexOutOfRange` models a
Go runtime index-out-of-range panic inside the command body (the `csv[0]`
access on an empty table, and the row/index accesses in the per-row loop). -/
inductive CsvErr where
  | sameFile : String → CsvErr
  | readFail : String → CsvErr
  | colErr : ColErr → CsvErr
  | translateFail : String → CsvErr
  | panicIndexOutOfRange : CsvErr
  deriving DecidableEq, Repr

/-- Batch extraction loop of the column-subset branch
(src/cmd/common.go:328-331): `strInp = append(strInp, row[v-1])` for each
`v` in `colNumbers`, in order.  An access outside the row bounds is the Go
runtime panic, modelled as `none`; inside the bounds the accessed field is
`row.getD (v-1).toNat ""` (the default is never used under the bound). -/
def extractBatch (row : List String) : List Int → Option (List String)
  | [] => some []
  | i :: idxs =>
    if 1 ≤ i ∧ i ≤ (row.length : Int) then
      (extractBatch row idxs).map fun rest => row.getD (i - 1).toNat "" :: rest
    else none

/-- Write-back loop of the column-subset branch (src/cmd/common.go:336-338):
`for k, v := range strOut { row[colNumbers[k]-1] = v }`.  The loop ranges
over the returned batch, so a batch longer than `colNumbers` panics when
indexing `colNumbers[k]`, and a row access outside bounds panics as well;
both are modelled as `none`.  A batch shorter than `colNumbers` terminates
the loop normally, silently leaving the remaining referenced columns
untouched. -/
def writeBack : List String → List Int → List String → Option (List String)
  | row, _, [] => some row
  | _, [], _ :: _ => none
  | row, i :: idxs, v :: vs =>
    if 1 ≤ i ∧ i ≤ (row.length : Int) then writeBack (row.set (i - 1).toNat v) idxs vs
    else none

/-- Body of the per-row loop of the `csv` command (src/cmd/common.go:320-340)
for one row: whole-row mode when `nCols == 0` (submit the row itself,
replace it with whatever batch comes back, with no length check), otherwise
extract the referenced fields, submit them as one batch, and write the
returned values back at the referenced columns.  A failed `translateEx`
call is wrapped with the "failed to translate text" context. -/
def translateRow (d : Disp) (colNumbers : List Int) (row : List String) :
    Except CsvErr (List String) :=
  if colNumbers.length = 0 then
    match d row with
    | .ok strOut => .ok strOut
    | .error e => .error (.translateFail e)
  else
    match extractBatch row colNumbers with
    | none => .error .panicIndexOutOfRange
    | some strInp =>
      match d strInp with
      | .error e => .error (.translateFail e)
      | .ok strOut =>
        match writeBack row colNumbers strOut with
        | none => .error .panicIndexOutOfRange
        | some newRow => .ok newRow

/-- Per-row loop of the `csv` command over the whole table
(src/cmd/common.go:320-340): rows are processed in order and the first
failure aborts the loop.  The Go loop mutates `csv` in place and the table
is only observable through the final `writeSliceToCSV`, so the functional
recursion is observationally equivalent. -/
def mapRows (d : Disp) (colNumbers : List Int) :
    List (List String) → Except CsvErr (List (List String))
  | [] => .ok []
  | row :: rows =>
    match translateRow d colNumbers row with
    | .error e => .error e
    | .ok r =>
      match mapRows d colNumbers rows with
      | .error e => .error e
      | .ok rs => .ok (r :: rs)

/-- Embedding of the `csv` command body (src/cmd/common.go:305-343).
`readResult` stands for the outcome of
`readCSVToSlice(inputFile, false, ...)`; the guard `inputFile == outputFile`
is checked before it is consulted.  `len(csv[0])` on an empty table is the
Go runtime panic.  The `.ok` payload is exactly the table passed to
`writeSliceToCSV(outputFile, csv, nil, csvDelimiter)`; on any `.error` the
output file is never created. -/
def csvCmdRun (inputFile outputFile : String)
    (readResult : Except String (List (List String)))
    (csvColumn : List String) (d : Disp) : Except CsvErr (List (List String)) :=
  if inputFile = outputFile then .error (.sameFile inputFile)
  else
    match readResult with
    | .error e => .error (.readFail e)
    | .ok csv =>
      match csv with
      | [] => .error .panicIndexOutOfRange
      | row0 :: _ =>
        match decodeColNumbers csvColumn row0.length with
        | .error e => .error (.colErr e)
        | .ok colNumbers => mapRows d colNumbers csv

/-- Decidable equality for `Except`, so that concrete runs of the embedded
functions can be settled by `decide`. -/
instance {ε : Type u} {α : Type v} [DecidableEq ε] [DecidableEq α] :
    DecidableEq (Except ε α) := fun a b =>
  match a, b with
  | .error e₁, .error e₂ =>
    if h : e₁ = e₂ then .isTrue (by rw [h]) else .isFalse (by simp [h])
  | .ok x, .ok y =>
    if h : x = y then .isTrue (by rw [h]) else .isFalse (by simp [h])
  | .error _, .ok _ => .isFalse (by simp)
  | .ok _, .error _ => .isFalse (by simp)

lemma wrap64_eq_self (z : Int) (h0 : 0 ≤ z) (h1 : z < 2 ^ 63) : wrap64 z = z := by
  unfold wrap64
  have h2 : z + 2 ^ 63 < 2 ^ 64 := by omega
  have h3 : (0 : Int) ≤ z + 2 ^ 63 := by omega
  rw [Int.emod_eq_of_lt h3 h2]
  omega

lemma titleLoop_append (l : List Char) (c : Char) (res : Int)
    (hl : ∀ d ∈ l, charOk d) (hc : charOk c) :
    titleLoop res (l ++ [c]) = wrap64 (titleLoop res l * 26 + charVal c) := by
  induction l generalizing res with
  | nil => simp [titleLoop, hc]
  | cons d ds ih =>
    have hd : charOk d := hl d (List.mem_cons_self d ds)
    simp only [List.cons_append, titleLoop, hd, if_true]
    exact ih _ fun x hx => hl x (List.mem_cons_of_mem d hx)

/-- C1: the letter-sequence column decoder implements bijective base-26.
For every integer i with 1 ≤ i ≤ 26, decoding the single letter at
position i in 'A'..'Z' (the character with code 64 + i) yields i;
"AA" decodes to 27, "AZ" to 52, "BA" to 53 and "ZZ" to 702; and decoding
proceeds left to right accumulating result = result * 26 + charValue
(charValue of 'A' is 1, 'Z' is 26), stated here for any extension of a
valid title by one more letter, with Go 64-bit wrap-around made explicit
(the stated bound keeps the accumulator inside the `int` range, where the
wrap is the identity). -/
theorem C1_titleToNumber_bijective_base26 (i : Nat) (h1 : 1 ≤ i) (h2 : i ≤ 26) :
    titleToNumber (String.mk [Char.ofNat (64 + i)]) = (i : Int)
    ∧ titleToNumber "AA" = 27 ∧ titleToNumber "AZ" = 52
    ∧ titleToNumber "BA" = 53 ∧ titleToNumber "ZZ" = 702
    ∧ ∀ (l : List Char) (c : Char), l ≠ [] → (∀ d ∈ l, charOk d) → charOk c →
        0 ≤ titleToNumber (String.mk l) * 26 + charVal c →
        titleToNumber (String.mk l) * 26 + charVal c < 2 ^ 63 →
        titleToNumber (String.mk (l ++ [c])) = titleToNumber (String.mk l) * 26 + charVal c := by
  refine ⟨?_, by decide, by decide, by decide, by decide, ?_⟩
  · interval_cases i <;> decide
  · intro l c hne hl hc hlo hhi
    have hl0 : ¬ (String.mk l).data.length < 1 := by
      cases l with
      | nil => exact absurd rfl hne
      | cons x xs => simp
    have heq : titleToNumber (String.mk l) = titleLoop 0 l := by
      unfold titleToNumber
      rw [if_neg hl0]
    have hlapp : ¬ (String.mk (l ++ [c])).data.length < 1 := by simp
    have heq2 : titleToNumber (String.mk (l ++ [c])) = titleLoop 0 (l ++ [c]) := by
      unfold titleToNumber
      rw [if_neg hlapp]
    rw [heq2, titleLoop_append l c 0 hl hc, ← heq]
    exact wrap64_eq_self _ hlo hhi

/-- Witness for C1 at i = 26: decoding the single letter 'Z' yields 26. -/
theorem C1_witness :
    (1 ≤ 26 ∧ 26 ≤ 26) ∧ titleToNumber (String.mk [Char.ofNat (64 + 26)]) = (26 : Int) :=
  ⟨by decide, (C1_titleToNumber_bijective_base26 26 (by decide) (by decide)).1⟩

/-- C2: code bug.  The claim (and the spec's MUST) says a dispatcher result
whose length differs from the submitted batch makes the Row Translation
Mapper fail, never silently truncate, pad, or write a partial or
mismatched row.  The code has no length check: in whole-row mode the row
["a","b"] is silently replaced by the one-element batch ["X"] and the file
is written; in column-subset mode a shorter batch silently writes a
partial row, and a longer batch hits the Go runtime panic at
`colNumbers[k]` instead of an error.  This theorem evaluates the embedded
code at those failing inputs. -/
theorem C2_mapper_lacks_length_check :
    translateRow (fun _ => .ok ["X"]) [] ["a", "b"] = .ok ["X"]
    ∧ translateRow (fun _ => .ok ["X"]) [1, 2] ["a", "b", "c"] = .ok ["X", "b", "c"]
    ∧ translateRow (fun _ => .ok ["X", "Y"]) [2] ["a", "b", "c"] =
        .error .panicIndexOutOfRange
    ∧ csvCmdRun "i.csv" "o.csv" (.ok [["a", "b"]]) [] (fun _ => .ok ["X"]) = .ok [["X"]] :=
  ⟨rfl, rfl, rfl, rfl⟩

/-- C4: code bug.  The claim (and the spec) says a token that is empty after
trimming decodes to 0 and therefore fails with the out-of-range error, and
that decoding never crashes.  In the code, `col[0]` is evaluated on the
trimmed token before anything else, so an empty token hits the Go runtime
index-out-of-range panic and `titleToNumber`'s own empty-string guard
(which would indeed return 0, as the last conjunct shows) is unreachable.
This theorem evaluates the embedded code at the failing inputs. -/
theorem C4_empty_token_panics :
    decodeColOne "" 3 = .error .panicIndexOutOfRange
    ∧ decodeColOne "   " 3 = .error .panicIndexOutOfRange
    ∧ decodeColNumbers [""] 3 = .error .panicIndexOutOfRange
    ∧ titleToNumber "" = 0 := by decide

lemma rangeCheck_ok_iff (col : String) (n : Int) (w : Nat) (v : Int) :
    rangeCheck col n w = .ok v ↔ n = v ∧ 1 ≤ n ∧ n ≤ (w : Int) := by
  unfold rangeCheck
  by_cases h : n < 1 ∨ n > (w : Int)
  · rw [if_pos h]
    constructor
    · intro hx; exact absurd hx (by simp)
    · rintro ⟨rfl, h1, h2⟩; exfalso; omega
  · rw [if_neg h]
    constructor
    · intro hx
      have hnv : n = v := by injection hx
      exact ⟨hnv, by omega⟩
    · rintro ⟨rfl, h1, h2⟩; rfl

lemma rangeCheck_err (col : String) (n : Int) (w : Nat) (h : n < 1 ∨ (w : Int) < n) :
    rangeCheck col n w = .error (.outOfRange col) := by
  unfold rangeCheck
  rw [if_pos h]

lemma decodeColOne_of_colValue (tok : String) (w : Nat) (v : Int)
    (hv : colValue tok = some v) :
    decodeColOne tok w = rangeCheck (normalizeTok tok) v w := by
  simp only [colValue] at hv
  simp only [decodeColOne]
  cases h : (normalizeTok tok).data with
  | nil =>
    simp only [h] at hv
    exact absurd hv (by simp)
  | cons c cs =>
    simp only [h] at hv ⊢
    by_cases hc : charOk c = true
    · rw [if_pos hc] at hv ⊢
      obtain rfl : titleToNumber (normalizeTok tok) = v := by
        simpa using hv
      rfl
    · rw [if_neg hc] at hv ⊢
      rw [hv]

lemma decodeColOne_of_colValue_none (tok : String) (w : Nat)
    (hv : colValue tok = none) :
    decodeColOne tok w = .error .panicIndexOutOfRange
    ∨ decodeColOne tok w = .error (.invalidColumn (normalizeTok tok)) := by
  simp only [colValue] at hv
  simp only [decodeColOne]
  cases h : (normalizeTok tok).data with
  | nil =>
    simp only [h]
    exact Or.inl trivial
  | cons c cs =>
    simp only [h] at hv ⊢
    by_cases hc : charOk c = true
    · rw [if_pos hc] at hv; exact absurd hv (by simp)
    · rw [if_neg hc] at hv ⊢
      rw [hv]
      exact Or.inr rfl

/-- C6 counterexample: for row width 1 the token " b " has decoded value 2,
outside [1, 1], and the decoder does fail with the out-of-range error — but
the error carries the trimmed-and-uppercased token "B", not the original
token " b " as the claim states. -/
theorem C6_counterexample :
    colValue " b " = some 2
    ∧ decodeColOne " b " 1 = .error (.outOfRange "B")
    ∧ decodeColOne " b " 1 ≠ .error (.outOfRange " b ") := by decide

/-- C6 (amended): for every row width w ≥ 1 and every reference token, if
the value the decoder computes for the token (its decoded value, `colValue`)
lies outside [1, w] then decoding fails with the ColumnOutOfRange error
carrying the trimmed-and-uppercased token, and it is exactly the references
whose decoded value lies in [1, w] that succeed. -/
theorem C6_out_of_range_refs_fail (w : Nat) (tok : String) (_hw : 1 ≤ w) :
    ((∃ v, colValue tok = some v ∧ (v < 1 ∨ (w : Int) < v)) →
        decodeColOne tok w = .error (.outOfRange (normalizeTok tok)))
    ∧ ((∃ v, decodeColOne tok w = .ok v) ↔
        ∃ v, colValue tok = some v ∧ 1 ≤ v ∧ v ≤ (w : Int)) := by
  constructor
  · rintro ⟨v, hv, hout⟩
    rw [decodeColOne_of_colValue tok w v hv]
    exact rangeCheck_err _ v w hout
  · constructor
    · rintro ⟨v, hv⟩
      cases hcv : colValue tok with
      | none =>
        rcases decodeColOne_of_colValue_none tok w hcv with h | h <;>
          rw [h] at hv <;> exact absurd hv (by simp)
      | some v0 =>
        rw [decodeColOne_of_colValue tok w v0 hcv] at hv
        obtain ⟨heq, h1, h2⟩ := (rangeCheck_ok_iff _ v0 w v).mp hv
        exact ⟨v0, rfl, h1, h2⟩
    · rintro ⟨v, hv, h1, h2⟩
      refine ⟨v, ?_⟩
      rw [decodeColOne_of_colValue tok w v hv]
      exact (rangeCheck_ok_iff _ v w v).mpr ⟨rfl, h1, h2⟩

/-- Witness for C6 at w = 1 and token "B" (decoded value 2, outside [1, 1]):
the decoder fails with the out-of-range error carrying the normalised
token. -/
theorem C6_witness :
    1 ≤ 1
    ∧ (colValue "B" = some 2 ∧ ((2 : Int) < 1 ∨ (1 : Int) < 2))
    ∧ decodeColOne "B" 1 = .error (.outOfRange (normalizeTok "B")) :=
  ⟨by decide, ⟨by decide, by decide⟩,
    (C6_out_of_range_refs_fail 1 "B" (by decide)).1 ⟨2, by decide, by decide⟩⟩

/-- C5: for an empty list of column references the Column Selector returns
an empty index list, and the Row Translation Mapper then operates in
whole-row mode: for every row the entire row is submitted as a single
batch (`d row`) and the row is replaced by the returned batch in the same
order (a dispatcher error is propagated with the translation context). -/
theorem C5_empty_refs_whole_row_mode (w : Nat) (d : Disp) (row : List String) :
    decodeColNumbers [] w = .ok []
    ∧ translateRow d [] row = Except.mapError CsvErr.translateFail (d row) := by
  refine ⟨rfl, ?_⟩
  unfold translateRow
  cases d row <;> simp [Except.mapError]

/-- C9: the CSV command fails whenever the input path equals the output
path; the guard is evaluated before the read result is consulted (the
outcome is identical for any two read results, so no file is read) and the
result is an error, under which no output is ever written. -/
theorem C9_same_path_rejected_before_io (f : String)
    (r1 r2 : Except String (List (List String))) (cols : List String) (d : Disp) :
    csvCmdRun f f r1 cols d = .error (.sameFile f)
    ∧ csvCmdRun f f r1 cols d = csvCmdRun f f r2 cols d := by
  constructor <;> simp [csvCmdRun]

/-- C10: a CSV file parsing to zero records does not produce an ordinary
error return: the command indexes the empty record list to take the row
width from the first row, which is the Go runtime index-out-of-range
panic (modelled by the distinguished `panicIndexOutOfRange` outcome), so
the command body is total only under the precondition of at least one
row. -/
theorem C10_empty_table_panics (inF outF : String) (cols : List String) (d : Disp)
    (h : inF ≠ outF) :
    csvCmdRun inF outF (.ok []) cols d = .error .panicIndexOutOfRange := by
  simp [csvCmdRun, h]

/-- Witness for C10 with distinct concrete paths. -/
theorem C10_witness :
    "a.csv" ≠ "b.csv"
    ∧ csvCmdRun "a.csv" "b.csv" (.ok []) [] (fun xs => .ok xs) =
        .error .panicIndexOutOfRange :=
  ⟨by decide, C10_empty_table_panics "a.csv" "b.csv" [] (fun xs => .ok xs) (by decide)⟩

lemma decodeColNumbers_all_ok (cols : List String) (w : Nat)
    (h : ∀ c ∈ cols, ∃ v, decodeColOne c w = .ok v) :
    ∃ ns, decodeColNumbers cols w = .ok ns
      ∧ List.Forall₂ (fun c n => decodeColOne c w = .ok n) cols ns := by
  induction cols with
  | nil => exact ⟨[], rfl, List.Forall₂.nil⟩
  | cons c cs ih =>
    obtain ⟨v, hv⟩ := h c (List.mem_cons_self c cs)
    obtain ⟨ns, hns, hf⟩ := ih fun x hx => h x (List.mem_cons_of_mem c hx)
    refine ⟨v :: ns, ?_, List.Forall₂.cons hv hf⟩
    simp only [decodeColNumbers, hv, hns]

lemma decodeColNumbers_first_err (pre : List String) (c : String) (post : List String)
    (w : Nat) (e : ColErr)
    (hpre : ∀ p ∈ pre, ∃ v, decodeColOne p w = .ok v)
    (hc : decodeColOne c w = .error e) :
    decodeColNumbers (pre ++ c :: post) w = .error e := by
  induction pre with
  | nil => simp only [List.nil_append, decodeColNumbers, hc]
  | cons p ps ih =>
    obtain ⟨v, hv⟩ := hpre p (List.mem_cons_self p ps)
    have hrest := ih fun x hx => hpre x (List.mem_cons_of_mem p hx)
    simp only [List.cons_append, decodeColNumbers, hv, List.append_eq, hrest]

/-- C8: for every non-empty list of reference strings and row width w, if
each reference decodes successfully then the Column Selector returns a
list of the same length whose element k is the decode of reference k (in
input order, duplicates permitted); and whenever a reference fails after a
prefix of successful decodes, the whole operation returns exactly that
reference's error. -/
theorem C8_selector_order_and_first_failure (cols : List String) (w : Nat)
    (hne : cols ≠ []) :
    ((∀ c ∈ cols, ∃ v, decodeColOne c w = .ok v) →
      ∃ ns, decodeColNumbers cols w = .ok ns ∧ ns.length = cols.length
        ∧ List.Forall₂ (fun c n => decodeColOne c w = .ok n) cols ns)
    ∧ (∀ pre c post e, cols = pre ++ c :: post →
        (∀ p ∈ pre, ∃ v, decodeColOne p w = .ok v) →
        decodeColOne c w = .error e →
        decodeColNumbers cols w = .error e) := by
  constructor
  · intro h
    obtain ⟨ns, h1, h2⟩ := decodeColNumbers_all_ok cols w h
    exact ⟨ns, h1, h2.length_eq.symm, h2⟩
  · rintro pre c post e rfl hpre hc
    exact decodeColNumbers_first_err pre c post w e hpre hc

/-- Witness for C8 on the references ["A", "2"] with row width 3: both
decode, and the selector returns a two-element list pointwise equal to the
individual decodes. -/
theorem C8_witness :
    ∃ ns, decodeColNumbers ["A", "2"] 3 = .ok ns
      ∧ ns.length = (["A", "2"] : List String).length
      ∧ List.Forall₂ (fun c n => decodeColOne c 3 = .ok n) ["A", "2"] ns := by
  refine (C8_selector_order_and_first_failure ["A", "2"] 3 (by decide)).1 ?_
  intro c hc
  rcases List.mem_cons.mp hc with rfl | hc2
  · exact ⟨1, by decide⟩
  · rcases List.mem_cons.mp hc2 with rfl | hc3
    · exact ⟨2, by decide⟩
    · cases hc3

lemma extractBatch_eq (row : List String) (idxs : List Int)
    (h : ∀ i ∈ idxs, 1 ≤ i ∧ i ≤ (row.length : Int)) :
    extractBatch row idxs = some (idxs.map fun i => row.getD (i - 1).toNat "") := by
  induction idxs with
  | nil => rfl
  | cons i is ih =>
    have hi := h i (List.mem_cons_self i is)
    simp only [extractBatch, List.map_cons]
    rw [if_pos hi, ih fun x hx => h x (List.mem_cons_of_mem i hx)]
    rfl

lemma writeBack_eq (idxs : List Int) (outs : List String) (row : List String)
    (hlen : outs.length = idxs.length)
    (h : ∀ i ∈ idxs, 1 ≤ i ∧ i ≤ (row.length : Int)) :
    writeBack row idxs outs =
      some ((idxs.zip outs).foldl (fun r p => r.set (p.1 - 1).toNat p.2) row) := by
  induction idxs generalizing outs row with
  | nil =>
    cases outs with
    | nil => rfl
    | cons v vs => simp at hlen
  | cons i is ih =>
    cases outs with
    | nil => simp at hlen
    | cons v vs =>
      have hi := h i (List.mem_cons_self i is)
      simp only [writeBack, List.zip_cons_cons, List.foldl_cons]
      rw [if_pos hi]
      refine ih vs (row.set (i - 1).toNat v) ?_ ?_
      · simpa using hlen
      · intro x hx
        have hb := h x (List.mem_cons_of_mem i hx)
        simpa [List.length_set] using hb

lemma foldl_set_length (ps : List (Int × String)) (row : List String) :
    (ps.foldl (fun r p => r.set (p.1 - 1).toNat p.2) row).length = row.length := by
  induction ps generalizing row with
  | nil => rfl
  | cons p ps ih =>
    simp only [List.foldl_cons]
    rw [ih, List.length_set]

lemma foldl_set_frame (ps : List (Int × String)) (row : List String) (j : Nat)
    (h1 : ∀ p ∈ ps, 1 ≤ p.1) (h2 : ∀ p ∈ ps, p.1 ≠ (j + 1 : Int)) :
    (ps.foldl (fun r p => r.set (p.1 - 1).toNat p.2) row)[j]? = row[j]? := by
  induction ps generalizing row with
  | nil => rfl
  | cons p ps ih =>
    simp only [List.foldl_cons]
    rw [ih _ (fun q hq => h1 q (List.mem_cons_of_mem p hq))
        (fun q hq => h2 q (List.mem_cons_of_mem p hq))]
    apply List.getElem?_set_ne
    have ha := h1 p (List.mem_cons_self p ps)
    have hb := h2 p (List.mem_cons_self p ps)
    omega

/-- C3: in column-subset mode, for every row, every non-empty list of
indices valid for the row, and every dispatcher that returns a batch of
matching length, the mapper extracts the referenced fields in index order
into one batch, writes returned batch position k back at column
indices[k] (1-based, a left-to-right fold of single-cell writes), keeps
the row length, and leaves every field whose column is not in the index
list unchanged; in particular for the row ["a","b","c"], indices [2], and
an uppercasing dispatcher, the result row is ["a","B","c"]. -/
theorem C3_column_subset_write_back (d : Disp) (row : List String)
    (idxs : List Int) (outs : List String)
    (hne : idxs ≠ [])
    (hb : ∀ i ∈ idxs, 1 ≤ i ∧ i ≤ (row.length : Int))
    (hd : d (idxs.map fun i => row.getD (i - 1).toNat "") = .ok outs)
    (hlen : outs.length = idxs.length) :
    (∃ newRow, translateRow d idxs row = .ok newRow
      ∧ newRow = (idxs.zip outs).foldl (fun r p => r.set (p.1 - 1).toNat p.2) row
      ∧ newRow.length = row.length
      ∧ ∀ j : Nat, ((j : Int) + 1) ∉ idxs → newRow[j]? = row[j]?)
    ∧ translateRow (fun xs => .ok (xs.map goToUpper)) [2] ["a", "b", "c"] =
        .ok ["a", "B", "c"] := by
  refine ⟨⟨_, ?_, rfl, foldl_set_length _ row, ?_⟩, rfl⟩
  · have h0 : ¬ idxs.length = 0 := by
      simpa [List.length_eq_zero] using hne
    simp only [translateRow, if_neg h0, extractBatch_eq row idxs hb, hd,
      writeBack_eq idxs outs row hlen hb]
  · intro j hj
    apply foldl_set_frame
    · rintro ⟨a, b⟩ hq
      exact (hb a (List.of_mem_zip hq).1).1
    · rintro ⟨a, b⟩ hq hcontra
      exact hj (hcontra ▸ (List.of_mem_zip hq).1)

/-- Witness for C3: the spec's own example, row ["a","b","c"] with indices
[2] and an uppercasing dispatcher, yields ["a","B","c"] while columns 1
and 3 are untouched. -/
theorem C3_witness :
    ∃ newRow, translateRow (fun xs => .ok (xs.map goToUpper)) [2] ["a", "b", "c"] = .ok newRow
      ∧ newRow = (([2] : List Int).zip ["B"]).foldl
          (fun r p => r.set (p.1 - 1).toNat p.2) ["a", "b", "c"]
      ∧ newRow.length = (["a", "b", "c"] : List String).length
      ∧ ∀ j : Nat, ((j : Int) + 1) ∉ ([2] : List Int) →
          newRow[j]? = (["a", "b", "c"] : List String)[j]? :=
  (C3_column_subset_write_back (fun xs => .ok (xs.map goToUpper)) ["a", "b", "c"]
    [2] ["B"] (by decide) (by decide) rfl (by decide)).1

lemma mapRows_ok_forall (d : Disp) (cns : List Int) (rows out : List (List String))
    (h : mapRows d cns rows = .ok out) :
    ∀ row ∈ rows, ∃ r, translateRow d cns row = .ok r := by
  induction rows generalizing out with
  | nil =>
    intro row hrow
    cases hrow
  | cons a rs ih =>
    intro row hrow
    cases ha : translateRow d cns a with
    | error e =>
      simp only [mapRows, ha] at h
      exact Except.noConfusion h
    | ok r =>
      cases hrs : mapRows d cns rs with
      | error e =>
        simp only [mapRows, ha, hrs] at h
        exact Except.noConfusion h
      | ok rs2 =>
        rcases List.mem_cons.mp hrow with rfl | hmem
        · exact ⟨r, ha⟩
        · exact ih rs2 hrs row hmem

lemma mapRows_err_of_row_fails (d : Disp) (cns : List Int) (rows : List (List String))
    (h : ∃ row ∈ rows, ∀ r, translateRow d cns row ≠ .ok r) :
    ∃ e, mapRows d cns rows = .error e := by
  induction rows with
  | nil =>
    rcases h with ⟨row, hrow, _⟩
    cases hrow
  | cons a rs ih =>
    rcases h with ⟨row, hrow, hfail⟩
    cases ha : translateRow d cns a with
    | error e => exact ⟨e, by simp only [mapRows, ha]⟩
    | ok r =>
      rcases List.mem_cons.mp hrow with rfl | hmem
      · exact absurd ha (hfail r)
      · obtain ⟨e, he⟩ := ih ⟨row, hmem, hfail⟩
        exact ⟨e, by simp only [mapRows, ha, he]⟩

/-- C7: the CSV command produces an output table (and hence writes the
output file) only when every row translated successfully, and if
translating any row fails the whole file operation ends in an error, so
the output file is never written and there is no partial output. -/
theorem C7_row_failure_aborts_file (inF outF : String) (csv : List (List String))
    (cols : List String) (d : Disp) :
    (∀ out, csvCmdRun inF outF (.ok csv) cols d = .ok out →
        ∃ cns, decodeColNumbers cols (csv.headD []).length = .ok cns
          ∧ ∀ row ∈ csv, ∃ r, translateRow d cns row = .ok r)
    ∧ (∀ cns, decodeColNumbers cols (csv.headD []).length = .ok cns →
        (∃ row ∈ csv, ∀ r, translateRow d cns row ≠ .ok r) →
        ∃ e, csvCmdRun inF outF (.ok csv) cols d = .error e) := by
  constructor
  · intro out hout
    by_cases hio : inF = outF
    · simp [csvCmdRun, hio] at hout
    · cases csv with
      | nil => simp [csvCmdRun, hio] at hout
      | cons row0 rest =>
        cases hdec : decodeColNumbers cols row0.length with
        | error e => simp [csvCmdRun, hio, hdec] at hout
        | ok cns =>
          refine ⟨cns, by simpa using hdec, ?_⟩
          apply mapRows_ok_forall d cns (row0 :: rest) out
          simpa [csvCmdRun, hio, hdec] using hout
  · intro cns hdec hfail
    by_cases hio : inF = outF
    · exact ⟨.sameFile inF, by simp [csvCmdRun, hio]⟩
    · cases csv with
      | nil =>
        exact ⟨.panicIndexOutOfRange, by simp [csvCmdRun, hio]⟩
      | cons row0 rest =>
        obtain ⟨e, he⟩ := mapRows_err_of_row_fails d cns (row0 :: rest) hfail
        refine ⟨e, ?_⟩
        have hdec2 : decodeColNumbers cols row0.length = .ok cns := by simpa using hdec
        simp [csvCmdRun, hio, hdec2, he]

/-- Witness for C7: a successful run on a one-row table with the identity
dispatcher and no column restriction, recovering per-row success. -/
theorem C7_witness :
    ∃ cns, decodeColNumbers [] ((([["x"]] : List (List String)).headD []).length) = .ok cns
      ∧ ∀ row ∈ ([["x"]] : List (List String)),
          ∃ r, translateRow (fun xs => .ok xs) cns row = .ok r :=
  (C7_row_failure_aborts_file "a.csv" "b.csv" [["x"]] [] (fun xs => .ok xs)).1 [["x"]] rfl
